import Mathlib

/-!
# Verification of the usage-report generator core

Shallow embedding of the core pipeline of the OpenAI/Claude usage report
generator (file `src/index-impl` of the repository): date utilities,
paginated fetch loops, Claude normalization, cost aggregation, and the CSV
and Markdown renderers, together with proofs of the specified properties.

Modelling conventions:
* JavaScript numbers are modelled exactly by `JNum`: either `NaN` or a
  rational value.  Floating-point rounding is abstracted away (the spec's
  invariants are stated "up to floating-point tolerance"; in the rational
  model they hold exactly), but `NaN` propagation — which the code relies
  on for unparseable amounts — is modelled faithfully.
* `parseFloat` is modelled on decimal literals with optional sign,
  fraction and exponent (the shapes the vendor APIs produce); the
  `Infinity` literal is not modelled and yields `NaN`.
* JS `Date` instants are modelled as integer milliseconds since the epoch;
  `toISOString` / ISO parsing are modelled by the standard proleptic
  Gregorian (civil) calendar conversions, with years assumed to lie in
  0..9999 (the only years reachable from strict `YYYY-MM-DD` input).
* JS `Map` (insertion-ordered, unique keys) is modelled by an association
  list where `set` updates the first matching key in place and otherwise
  appends, and `get` finds the first matching key.
* `String.prototype.localeCompare` is modelled as code-point lexicographic
  comparison (exact on the ASCII date strings; the standard simplification
  for line-item labels).
* `Array.prototype.sort` (stable, ES2019+) is modelled by a stable
  insertion sort over the boolean relation "comparator result ≤ 0", with
  a comparator returning `NaN` treated as `0` as the ES spec prescribes.
-/

/-! ## JavaScript numbers -/

/-- A JavaScript number: `NaN` or a (rational) value. -/
inductive JNum where
  | nan : JNum
  | val : ℚ → JNum
deriving DecidableEq, Repr

namespace JNum

/-- The rational carried by a `JNum` (`0` for `NaN`). -/
def toQ : JNum → ℚ
  | nan => 0
  | val q => q

/-- JS addition: `NaN` absorbs. -/
def add : JNum → JNum → JNum
  | nan, _ => nan
  | _, nan => nan
  | val a, val b => val (a + b)

/-- JS subtraction: `NaN` absorbs. -/
def sub : JNum → JNum → JNum
  | nan, _ => nan
  | _, nan => nan
  | val a, val b => val (a - b)

/-- JS multiplication: `NaN` absorbs. -/
def mul : JNum → JNum → JNum
  | nan, _ => nan
  | _, nan => nan
  | val a, val b => val (a * b)

/-- JS division: `NaN` absorbs; division by zero is collapsed to `NaN`
(JS would give `±Infinity` for a nonzero dividend, but every division in
the modelled code has a provably nonzero divisor). -/
def div : JNum → JNum → JNum
  | nan, _ => nan
  | _, nan => nan
  | val a, val b => if b = 0 then nan else val (a / b)

/-- JS truthiness of a number: `NaN` and `0` are falsy. -/
def truthy : JNum → Bool
  | nan => false
  | val q => decide (q ≠ 0)

/-- JS `x > 0` comparison: false on `NaN`. -/
def gtZero : JNum → Bool
  | nan => false
  | val q => decide (0 < q)

end JNum

/-- JS `x || d` on numbers: `d` when `x` is falsy (`NaN` or `0`). -/
def jsNumOr (x d : JNum) : JNum := if x.truthy then x else d

/-! ## `parseFloat` -/

/-- Value of a list of decimal digit characters. -/
def digitsVal (ds : List Char) : ℕ :=
  ds.foldl (fun a c => 10 * a + (c.toNat - 48)) 0

/-- Exponent part of a JS float literal: `e`/`E`, optional sign, digits.
Returns the exponent if present and well-formed, else `0` (JS `parseFloat`
ignores a trailing malformed exponent). -/
def parseExponent (cs : List Char) : ℤ :=
  match cs with
  | 'e' :: rest => parseSignedDigits rest
  | 'E' :: rest => parseSignedDigits rest
  | _ => 0
where
  parseSignedDigits (cs : List Char) : ℤ :=
    match cs with
    | '-' :: ds => -(digitsVal (ds.takeWhile Char.isDigit) : ℤ)
    | '+' :: ds => (digitsVal (ds.takeWhile Char.isDigit) : ℤ)
    | ds => (digitsVal (ds.takeWhile Char.isDigit) : ℤ)

/-- Model of JS `parseFloat` on decimal literals: skips leading
whitespace, reads an optional sign, an integer part, an optional fraction
and an optional exponent, ignoring any trailing garbage; returns `NaN`
when no digits are found.  The `Infinity` literal is not modelled (it
yields `NaN`). -/
def jsParseFloat (s : String) : JNum :=
  let cs := s.data.dropWhile Char.isWhitespace
  let (sign, cs) :=
    match cs with
    | '-' :: rest => ((-1 : ℚ), rest)
    | '+' :: rest => ((1 : ℚ), rest)
    | _ => ((1 : ℚ), cs)
  let intDs := cs.takeWhile Char.isDigit
  let afterInt := cs.dropWhile Char.isDigit
  let (fracDs, afterFrac) :=
    match afterInt with
    | '.' :: rest => (rest.takeWhile Char.isDigit, rest.dropWhile Char.isDigit)
    | _ => ([], afterInt)
  if intDs.isEmpty ∧ fracDs.isEmpty then JNum.nan
  else
    let mantissa : ℚ :=
      sign * ((digitsVal intDs : ℚ) + (digitsVal fracDs : ℚ) / 10 ^ fracDs.length)
    JNum.val (mantissa * 10 ^ parseExponent afterFrac)

/-! ## Civil calendar (JS `Date` model) -/

/-- Days since 1970-01-01 of a civil date (Howard Hinnant's algorithm);
`d` may exceed the month length, in which case the date rolls over, exactly
as ECMAScript `MakeDay` does. -/
def daysFromCivil (y : ℤ) (m d : ℕ) : ℤ :=
  let y' : ℤ := if m ≤ 2 then y - 1 else y
  let era : ℤ := Int.fdiv y' 400
  let yoe : ℕ := (y' - era * 400).toNat
  let doy : ℕ := (153 * (if 2 < m then m - 3 else m + 9) + 2) / 5 + d - 1
  let doe : ℕ := yoe * 365 + yoe / 4 - yoe / 100 + doy
  era * 146097 + (doe : ℤ) - 719468

/-- Civil date (year, month, day) of a count of days since 1970-01-01. -/
def civilFromDays (z : ℤ) : ℤ × ℕ × ℕ :=
  let z' : ℤ := z + 719468
  let era : ℤ := Int.fdiv z' 146097
  let doe : ℕ := (z' - era * 146097).toNat
  let yoe : ℕ := (doe - doe / 1460 + doe / 36524 - doe / 146096) / 365
  let y : ℤ := (yoe : ℤ) + era * 400
  let doy : ℕ := doe - (365 * yoe + yoe / 4 - yoe / 100)
  let mp : ℕ := (5 * doy + 2) / 153
  let d : ℕ := doy - (153 * mp + 2) / 5 + 1
  let m : ℕ := if mp < 10 then mp + 3 else mp - 9
  (if m ≤ 2 then y + 1 else y, m, d)

/-- Left-pad the decimal rendering of `n` to two digits. -/
def pad2 (n : ℕ) : String :=
  if n < 10 then "0" ++ toString n else toString n

/-- Left-pad the decimal rendering of `n` to four digits (years 0..9999,
the only years reachable from strict `YYYY-MM-DD` input). -/
def pad4 (n : ℤ) : String :=
  let n := n.toNat
  if n < 10 then "000" ++ toString n
  else if n < 100 then "00" ++ toString n
  else if n < 1000 then "0" ++ toString n
  else toString n

/-- Model of `date.toISOString().split('T')[0]` on an instant given in
milliseconds since the epoch: the UTC calendar date as `YYYY-MM-DD`. -/
def toISODateString (ms : ℤ) : String :=
  let c := civilFromDays (Int.fdiv ms 86400000)
  pad4 c.1 ++ "-" ++ pad2 c.2.1 ++ "-" ++ pad2 c.2.2

/-- Match a ten-character `YYYY-MM-DD` prefix (the regex
`/^\d\x7b4\x7d-\d\x7b2\x7d-\d\x7b2\x7d$/` on a length-10 string) and
extract the numeric year, month and day fields. -/
def extractYMDChars (cs : List Char) : Option (ℤ × ℕ × ℕ) :=
  match cs with
  | [y1, y2, y3, y4, h1, m1, m2, h2, d1, d2] =>
    if y1.isDigit ∧ y2.isDigit ∧ y3.isDigit ∧ y4.isDigit ∧ h1 = '-' ∧
       m1.isDigit ∧ m2.isDigit ∧ h2 = '-' ∧ d1.isDigit ∧ d2.isDigit then
      some ((digitsVal [y1, y2, y3, y4] : ℤ),
            digitsVal [m1, m2], digitsVal [d1, d2])
    else none
  | _ => none

/-- Model of `DATE_PATTERN.test(s)` together with field extraction: `some` exactly
when `s` matches strict `YYYY-MM-DD`. -/
def extractYMD (s : String) : Option (ℤ × ℕ × ℕ) := extractYMDChars s.data

/-- Time-of-day part of an ISO date-time suffix: `HH:MM:SS` or
`HH:MM:SS.mmm` followed by `Z`, in milliseconds. -/
def parseTimePart (cs : List Char) : Option ℤ :=
  match cs with
  | [h1, h2, c1, m1, m2, c2, s1, s2, z] =>
    if h1.isDigit ∧ h2.isDigit ∧ c1 = ':' ∧ m1.isDigit ∧ m2.isDigit ∧
       c2 = ':' ∧ s1.isDigit ∧ s2.isDigit ∧ z = 'Z' then
      let hh := digitsVal [h1, h2]
      let mm := digitsVal [m1, m2]
      let ss := digitsVal [s1, s2]
      if hh ≤ 23 ∧ mm ≤ 59 ∧ ss ≤ 59 then
        some ((hh * 3600 + mm * 60 + ss : ℕ) * 1000)
      else none
    else none
  | [h1, h2, c1, m1, m2, c2, s1, s2, dot, f1, f2, f3, z] =>
    if h1.isDigit ∧ h2.isDigit ∧ c1 = ':' ∧ m1.isDigit ∧ m2.isDigit ∧
       c2 = ':' ∧ s1.isDigit ∧ s2.isDigit ∧ dot = '.' ∧
       f1.isDigit ∧ f2.isDigit ∧ f3.isDigit ∧ z = 'Z' then
      let hh := digitsVal [h1, h2]
      let mm := digitsVal [m1, m2]
      let ss := digitsVal [s1, s2]
      let ms := digitsVal [f1, f2, f3]
      if hh ≤ 23 ∧ mm ≤ 59 ∧ ss ≤ 59 then
        some ((hh * 3600 + mm * 60 + ss : ℕ) * 1000 + (ms : ℕ))
      else none
    else none
  | _ => none

/-- Model of `new Date(s).getTime()` on the ISO/RFC 3339 UTC strings the
modelled code constructs or receives from the vendor API: `YYYY-MM-DD`,
optionally followed by `THH:MM:SS[.mmm]Z`.  Per ECMAScript, the month must
lie in 01..12 and the day in 01..31 for the string to parse at all
(otherwise the result is an invalid date, modelled as `none`), but a day
that is in 01..31 yet beyond the end of its month silently rolls over into
the next month (`MakeDay` arithmetic). -/
def jsDateMs (s : String) : Option ℤ :=
  let cs := s.data
  match extractYMDChars (cs.take 10) with
  | none => none
  | some (y, m, d) =>
    if 1 ≤ m ∧ m ≤ 12 ∧ 1 ≤ d ∧ d ≤ 31 then
      let dayMs := daysFromCivil y m d * 86400000
      match cs.drop 10 with
      | [] => some dayMs
      | 'T' :: rest =>
        match parseTimePart rest with
        | some t => some (dayMs + t)
        | none => none
      | _ => none
    else none

/-! ## Date utilities (`parseDate`, `validateDateRange`, `toUnixTimestamp`) -/

/-- The two error shapes thrown by `parseDate`: `Invalid date format: ...`
and `Invalid date: ...`. -/
inductive DateError where
  | invalidFormat (s : String)
  | invalidDate (s : String)
deriving DecidableEq, Repr

/-- Model of `parseDate`: reject strings not matching `DATE_PATTERN`; construct
`new Date(s + 'T00:00:00Z')`; reject when the construction yields an
invalid date (`isNaN`) or when re-serializing the instant to `YYYY-MM-DD`
does not reproduce the input.  Returns the instant in milliseconds. -/
def parseDate (s : String) : Except DateError ℤ :=
  if (extractYMD s).isSome = false then .error (.invalidFormat s)
  else
    match jsDateMs (s ++ "T00:00:00Z") with
    | none => .error (.invalidDate s)
    | some ms =>
      if toISODateString ms = s then .ok ms else .error (.invalidDate s)

/-- Model of `validateDateRange`: throws unless `end > start` (instants in
milliseconds, as compared by JS `Date` relational operators). -/
def validateDateRange (startMs endMs : ℤ) : Except String Unit :=
  if endMs ≤ startMs then .error "End date must be after start date"
  else .ok ()

/-- Model of `toUnixTimestamp`: `Math.floor(date.getTime() / 1000)`. -/
def toUnixTimestamp (ms : ℤ) : ℤ := Int.fdiv ms 1000

/-! ## Canonical data model -/

/-- A JSON value in the `amount.value` position: the vendor may transmit a
number or a numeric string. -/
inductive JsValue where
  | num : JNum → JsValue
  | str : String → JsValue
deriving DecidableEq, Repr

/-- Canonical `CostResult` (the `object` discriminator tag, constant
`'organization.costs.result'`, is omitted as it is never read). -/
structure CostResult where
  amount_value : JsValue
  amount_currency : String
  line_item : Option String
  project_id : Option String
deriving DecidableEq, Repr

/-- Canonical `CostBucket` (the constant `object` tag omitted);
`start_time`/`end_time` are unix seconds. -/
structure CostBucket where
  start_time : ℤ
  end_time : ℤ
  results : List CostResult
deriving DecidableEq, Repr

/-- One `{date, lineItem, cost}` daily record. -/
structure DailyCost where
  date : String
  lineItem : String
  cost : JNum
deriving DecidableEq, Repr

/-- The aggregation summary.  `costsByLineItem` is a JS `Map` modelled as
an insertion-ordered association list. -/
structure AggregatedCosts where
  totalCost : JNum
  startDate : String
  endDate : String
  projectId : String
  dailyCosts : List DailyCost
  costsByLineItem : List (String × JNum)
  billingDays : ℕ
  averageDailyCost : JNum
deriving DecidableEq, Repr

/-! ## JS `Map` model -/

/-- Model of `Map.prototype.get`: the value at the first matching key, if any. -/
def mapGet (m : List (String × JNum)) (k : String) : Option JNum :=
  match m with
  | [] => none
  | (k', v) :: rest => if k' = k then some v else mapGet rest k

/-- Model of `Map.prototype.set`: update the first matching key in place, else
append (JS `Map` preserves the position of an existing key). -/
def mapSet (m : List (String × JNum)) (k : String) (v : JNum) :
    List (String × JNum) :=
  match m with
  | [] => [(k, v)]
  | (k', v') :: rest =>
    if k' = k then (k, v) :: rest else (k', v') :: mapSet rest k v

/-- Model of `m.get(k) || 0`: the stored value if present and truthy, else `0`.
(Note `undefined || 0`, `0 || 0` and `NaN || 0` all give `0`.) -/
def mapGetOrZero (m : List (String × JNum)) (k : String) : JNum :=
  match mapGet m k with
  | some v => jsNumOr v (JNum.val 0)
  | none => JNum.val 0

/-! ## Aggregation -/

/-- Model of `new Date(bucket.start_time * 1000).toISOString().split('T')[0]`. -/
def epochSecondsToISODate (s : ℤ) : String := toISODateString (s * 1000)

/-- Coercion of `result.amount.value` to a number:
`typeof v === 'string' ? parseFloat(v) : v`. -/
def coerceCost (v : JsValue) : JNum :=
  match v with
  | .num x => x
  | .str s => jsParseFloat s

/-- Model of the label chosen by `result.line_item` with fallback: `null` and the empty, with `null` and the empty
string falling back to `"unknown"`. -/
def lineItemLabel (r : CostResult) : String :=
  match r.line_item with
  | some s => if s = "" then "unknown" else s
  | none => "unknown"

/-- Mutable state of the aggregation loop. -/
structure AggState where
  dailyCosts : List DailyCost
  costsByLineItem : List (String × JNum)
  totalCost : JNum
deriving DecidableEq, Repr

/-- Body of the inner `for (const result of bucket.results)` loop. -/
def processResult (date : String) (st : AggState) (r : CostResult) :
    AggState :=
  let cost := coerceCost r.amount_value
  let lineItem := lineItemLabel r
  let currentLineItemCost := mapGetOrZero st.costsByLineItem lineItem
  { dailyCosts := st.dailyCosts ++ [⟨date, lineItem, cost⟩],
    costsByLineItem :=
      mapSet st.costsByLineItem lineItem (currentLineItemCost.add cost),
    totalCost := st.totalCost.add cost }

/-- Body of the outer `for (const bucket of buckets)` loop. -/
def processBucket (st : AggState) (b : CostBucket) : AggState :=
  let date := epochSecondsToISODate b.start_time
  b.results.foldl (processResult date) st

/-- Model of `aggregateCosts(buckets, startDate, endDate, projectId)`. -/
def aggregateCosts (buckets : List CostBucket)
    (startDate endDate projectId : String) : AggregatedCosts :=
  let st := buckets.foldl processBucket ⟨[], [], JNum.val 0⟩
  let billingDays := buckets.length
  let averageDailyCost :=
    if 0 < billingDays then st.totalCost.div (JNum.val billingDays)
    else JNum.val 0
  { totalCost := st.totalCost,
    startDate := startDate,
    endDate := endDate,
    projectId := projectId,
    dailyCosts := st.dailyCosts,
    costsByLineItem := st.costsByLineItem,
    billingDays := billingDays,
    averageDailyCost := averageDailyCost }

/-! ## Claude normalization -/

/-- A raw Anthropic cost-report result.  (The unread fields
`context_window`, `token_type`, `service_tier` and `workspace_id` are
omitted: the modelled code never touches them.) -/
structure ClaudeCostResult where
  amount : String
  currency : String
  description : Option String
  model : Option String
  cost_type : Option String
deriving DecidableEq, Repr

/-- A raw Anthropic cost-report bucket; `starting_at`/`ending_at` are
RFC 3339 strings. -/
structure ClaudeCostBucket where
  starting_at : String
  ending_at : String
  results : List ClaudeCostResult
deriving DecidableEq, Repr

/-- Model of `[r.model, r.cost_type].filter(Boolean)`: keep the truthy entries
(non-null and non-empty). -/
def filterTruthyStrings (l : List (Option String)) : List String :=
  l.filterMap fun o =>
    match o with
    | some s => if s = "" then none else some s
    | none => none

/-- The `lineItem` computed by the Claude normalization:
`(r.description ?? [r.model, r.cost_type].filter(Boolean).join(' ')) || 'unknown'`.
Note `??` substitutes the join only for a `null` description, while `||`
replaces any *empty* outcome — including a non-null empty description —
with `"unknown"`. -/
def claudeLineItem (r : ClaudeCostResult) : String :=
  let joined :=
    String.intercalate " " (filterTruthyStrings [r.model, r.cost_type])
  let base := r.description.getD joined
  if base = "" then "unknown" else base

/-- Per-result body of the Claude `results.map` normalization. -/
def claudeResultToCostResult (r : ClaudeCostResult) : CostResult :=
  { amount_value := .num ((jsParseFloat r.amount).div (JNum.val 100)),
    amount_currency := r.currency,
    line_item := some (claudeLineItem r),
    project_id := none }

/-- Model of `claudeBucketToCostBucket`: convert the RFC 3339 bucket bounds to unix
seconds and normalize every result.  (`getD 0` stands in for the
unmodelled `NaN` timestamp a string outside the RFC 3339 profile would
produce; the vendor API always returns RFC 3339 bounds.) -/
def claudeBucketToCostBucket (b : ClaudeCostBucket) : CostBucket :=
  { start_time := Int.fdiv ((jsDateMs b.starting_at).getD 0) 1000,
    end_time := Int.fdiv ((jsDateMs b.ending_at).getD 0) 1000,
    results := b.results.map claudeResultToCostResult }

/-! ## Paginated fetch loops -/

/-- One vendor page response: `data`, `has_more`, `next_page`.  The
payload type is a parameter because the OpenAI endpoint returns canonical
buckets while the Claude endpoint returns raw Claude buckets. -/
structure PageResponse (β : Type) where
  data : List β
  has_more : Bool
  next_page : Option String
deriving DecidableEq, Repr

/-- JS truthiness of a `string | null`: `null` and `""` are falsy. -/
def truthyStr : Option String → Bool
  | none => false
  | some s => decide (s ≠ "")

/-- Observable behaviour of one fetch run: the `page` parameter carried by
each HTTP call in order (`none` = no `page` parameter), and the
accumulated bucket list. -/
structure FetchTrace where
  calls : List (Option String)
  buckets : List CostBucket
deriving DecidableEq, Repr

/-- The shared `do ... while (nextPage)` pagination loop.  `conv` is what
the loop body pushes onto `allBuckets` from a page's `data` (the identity
for OpenAI, per-bucket normalization for Claude).  The loop consumes the
given response sequence one response per call; `none` means the loop
wanted a further call beyond the supplied responses. -/
def fetchLoop {β : Type} (conv : List β → List CostBucket) :
    Option String → List (PageResponse β) → Option FetchTrace
  | _, [] => none
  | page, r :: rest =>
    let np := if r.has_more then r.next_page else none
    if truthyStr np then
      match fetchLoop conv np rest with
      | none => none
      | some t => some ⟨page :: t.calls, conv r.data ++ t.buckets⟩
    else some ⟨[page], conv r.data⟩

/-- Model of `fetchOpenAICosts` against a mocked response sequence: the first call
carries no `page` parameter; OpenAI pages need no field mapping. -/
def fetchOpenAICosts (responses : List (PageResponse CostBucket)) :
    Option FetchTrace :=
  fetchLoop id none responses

/-- Model of `fetchClaudeCosts` against a mocked response sequence: identical loop,
with each page's raw buckets normalized before being appended. -/
def fetchClaudeCosts (responses : List (PageResponse ClaudeCostBucket)) :
    Option FetchTrace :=
  fetchLoop (List.map claudeBucketToCostBucket) none responses

/-! ## Stable sort (model of `Array.prototype.sort`) -/

/-- Insert `x` into `l` before the first element `y` with `le x y` (stable
insertion: an earlier element is placed before the later elements it
ties with). -/
def insertBy {α : Type} (le : α → α → Bool) (x : α) : List α → List α
  | [] => [x]
  | y :: ys => if le x y then x :: y :: ys else y :: insertBy le x ys

/-- Stable insertion sort: the model of JS `Array.prototype.sort` with a
consistent comparator `c`, where `le a b` means `c(a, b) <= 0`. -/
def sortBy {α : Type} (le : α → α → Bool) : List α → List α
  | [] => []
  | x :: xs => insertBy le x (sortBy le xs)

/-! ## Number formatting (`toFixed`) -/

/-- Model of `Number.prototype.toFixed(f)` on a non-`NaN` value: the sign of `x`,
then the magnitude rounded to `f` fractional digits with ties away from
zero, zero-padded. -/
def toFixedVal (f : ℕ) (x : ℚ) : String :=
  let sign := if x < 0 then "-" else ""
  let n : ℕ := (Int.floor (|x| * 10 ^ f + 1 / 2)).toNat
  let ip := n / 10 ^ f
  let fp := n % 10 ^ f
  let fracStr := Nat.toDigits 10 fp
  let padded := String.mk (List.replicate (f - fracStr.length) '0' ++ fracStr)
  if f = 0 then sign ++ toString ip
  else sign ++ toString ip ++ "." ++ padded

/-- Model of `x.toFixed(f)`: `"NaN"` on `NaN`, else the fixed-point rendering. -/
def jsToFixed (f : ℕ) : JNum → String
  | JNum.nan => "NaN"
  | JNum.val q => toFixedVal f q

/-! ## CSV renderer -/

/-- Condition under which `escapeCSV` wraps in double quotes, doubling internal quotes, exactly
when the value contains a comma, a double quote or a newline. -/
def csvNeedsEscape (v : String) : Bool :=
  v.data.contains ',' || v.data.contains '"' || v.data.contains '\n'

/-- Model of the global-replace doubling every double quote. -/
def doubleQuotes (v : String) : String :=
  String.mk (v.data.foldr (fun c acc => if c = '"' then '"' :: '"' :: acc else c :: acc) [])

/-- Model of `escapeCSV(value)`. -/
def escapeCSV (v : String) : String :=
  if csvNeedsEscape v then "\"" ++ doubleQuotes v ++ "\"" else v

/-- The comparison `a.date.localeCompare(b.date)` then
`a.lineItem.localeCompare(b.lineItem)`, as the boolean relation
"comparator result ≤ 0" (localeCompare modelled as code-point order). -/
def csvLe (a b : DailyCost) : Bool :=
  decide (a.date < b.date ∨ (a.date = b.date ∧ a.lineItem ≤ b.lineItem))

/-- One CSV data row: `date,line_item,cost_usd,project_id`. -/
def csvRow (projectId : String) (d : DailyCost) : String :=
  d.date ++ "," ++ escapeCSV d.lineItem ++ "," ++ jsToFixed 2 d.cost ++ "," ++ projectId

/-- Model of `generateCSVReport`: header, rows sorted by date then line item,
joined by newlines with a trailing newline. -/
def generateCSVReport (agg : AggregatedCosts) : String :=
  let sortedDailyCosts := sortBy csvLe agg.dailyCosts
  let lines :=
    "date,line_item,cost_usd,project_id" ::
      sortedDailyCosts.map (csvRow agg.projectId)
  String.intercalate "\n" lines ++ "\n"

/-! ## Markdown renderer -/

/-- The report provider selector. -/
inductive Provider where
  | openai : Provider
  | claude : Provider
deriving DecidableEq, Repr

/-- Month names of `toLocaleDateString` in the en-US locale. -/
def monthLongName (m : ℕ) : String :=
  match m with
  | 1 => "January" | 2 => "February" | 3 => "March" | 4 => "April"
  | 5 => "May" | 6 => "June" | 7 => "July" | 8 => "August"
  | 9 => "September" | 10 => "October" | 11 => "November" | 12 => "December"
  | _ => "Invalid Date"

/-- Model of `formatDateForReport(new Date(dateStr + 'T00:00:00Z'), includeYear)`:
long month name, day and (optionally) year in UTC; each piece renders as
`Invalid Date` when the date string does not parse. -/
def formatDateForReport (dateStr : String) (includeYear : Bool) : String :=
  match jsDateMs (dateStr ++ "T00:00:00Z") with
  | none =>
    if includeYear then "Invalid Date Invalid Date, Invalid Date"
    else "Invalid Date Invalid Date"
  | some ms =>
    let c := civilFromDays (Int.fdiv ms 86400000)
    let month := monthLongName c.2.1
    let day := toString c.2.2
    let year := toString c.1
    if includeYear then month ++ " " ++ day ++ ", " ++ year
    else month ++ " " ++ day

/-- The report title and header block, through the Summary section (the
`Generated` line embeds the current time, passed in as `now`). -/
def mdHeaderLines (agg : AggregatedCosts) (orgId : String)
    (provider : Provider) (now : String) : List String :=
  let title :=
    match provider with
    | .claude => "Claude API Usage Report"
    | .openai => "OpenAI API Usage Report"
  let startFormatted := formatDateForReport agg.startDate false
  let endFormatted := formatDateForReport agg.endDate true
  [ "# " ++ title,
    "",
    "**Billing Period:** " ++ startFormatted ++ " - " ++ endFormatted,
    "**Project ID:** " ++ agg.projectId,
    "**Organization:** " ++ orgId,
    "**Generated:** " ++ now,
    "",
    "## Summary",
    "",
    "- **Total Cost:** $" ++ jsToFixed 2 agg.totalCost ++ " USD",
    "- **Billing Days:** " ++ toString agg.billingDays ++ " days",
    "- **Average Daily Cost:** $" ++ jsToFixed 2 agg.averageDailyCost ++ " USD",
    "" ]

/-- The comparator `(a, b) => b[1] - a[1]` of the line-item sort, as the
boolean relation "comparator result ≤ 0" (a `NaN` comparator result is
treated as `0`, i.e. a tie, per the ES `SortCompare` clamping). -/
def costDescLe (a b : String × JNum) : Bool :=
  match (b.2).sub a.2 with
  | JNum.nan => true
  | JNum.val q => decide (q ≤ 0)

/-- One row of the "Cost by Model/Service" table, with the
percentage-of-total to one decimal place and `0.0` when the total is not
positive. -/
def lineItemRow (totalCost : JNum) (kv : String × JNum) : String :=
  let percentage :=
    if totalCost.gtZero then jsToFixed 1 ((kv.2.div totalCost).mul (JNum.val 100))
    else "0.0"
  "| " ++ kv.1 ++ " | $" ++ jsToFixed 2 kv.2 ++ " | " ++ percentage ++ "% |"

/-- The "Cost by Model/Service" section: items sorted by cost descending
(stable). -/
def costByLineItemLines (agg : AggregatedCosts) : List String :=
  let sortedLineItems := sortBy costDescLe agg.costsByLineItem
  [ "## Cost by Model/Service",
    "",
    "| Model/Service | Total Cost | % of Total |",
    "|---------------|-----------|------------|" ] ++
  sortedLineItems.map (lineItemRow agg.totalCost) ++ [""]

/-- The "Daily Usage Breakdown" section: every daily record in original
order. -/
def dailyBreakdownLines (agg : AggregatedCosts) : List String :=
  [ "## Daily Usage Breakdown",
    "",
    "| Date | Model/Service | Cost (USD) |",
    "|------|---------------|-----------|" ] ++
  agg.dailyCosts.map (fun d =>
    "| " ++ d.date ++ " | " ++ d.lineItem ++ " | $" ++ jsToFixed 2 d.cost ++ " |") ++
  [""]

/-- The `dailyTotals` map: date → summed cost, built with
`dailyTotals.get(date) || 0` exactly like the aggregator's map. -/
def dailyTotalsOf (l : List DailyCost) : List (String × JNum) :=
  l.foldl (fun m d => mapSet m d.date ((mapGetOrZero m d.date).add d.cost)) []

/-- The "Total by Day" section: per-date totals sorted ascending by date
string. -/
def totalByDayLines (agg : AggregatedCosts) : List String :=
  let sortedDates :=
    sortBy (fun a b : String × JNum => decide (a.1 ≤ b.1))
      (dailyTotalsOf agg.dailyCosts)
  [ "## Total by Day",
    "",
    "| Date | Total Cost |",
    "|------|-----------|" ] ++
  sortedDates.map (fun kv => "| " ++ kv.1 ++ " | $" ++ jsToFixed 2 kv.2 ++ " |") ++
  [""]

/-- Model of `generateMarkdownReport(aggregated, orgId, provider)`; the embedded
`new Date().toISOString()` generation timestamp is passed in as `now`. -/
def generateMarkdownReport (agg : AggregatedCosts) (orgId : String)
    (provider : Provider) (now : String) : String :=
  let body :=
    if 0 < agg.costsByLineItem.length then
      costByLineItemLines agg ++ dailyBreakdownLines agg ++ totalByDayLines agg
    else
      ["No usage data for this period.", ""]
  String.intercalate "\n" (mdHeaderLines agg orgId provider now ++ body)

/-! ## Lemmas about the stable sort -/

theorem insertBy_perm {α : Type} (le : α → α → Bool) (x : α) (l : List α) :
    (insertBy le x l).Perm (x :: l) := by
  induction l with
  | nil => simp [insertBy]
  | cons y ys ih =>
    simp only [insertBy]
    split
    · exact List.Perm.refl _
    · exact ((ih.cons y).trans (List.Perm.swap x y ys))

theorem sortBy_perm {α : Type} (le : α → α → Bool) (l : List α) :
    (sortBy le l).Perm l := by
  induction l with
  | nil => simp [sortBy]
  | cons x xs ih =>
    exact (insertBy_perm le x (sortBy le xs)).trans (ih.cons x)

theorem mem_sortBy {α : Type} {le : α → α → Bool} {l : List α} {a : α}
    (h : a ∈ sortBy le l) : a ∈ l :=
  (sortBy_perm le l).mem_iff.mp h

theorem insertBy_pairwise {α : Type} {le : α → α → Bool}
    (htrans : ∀ a b c, le a b = true → le b c = true → le a c = true)
    (htot : ∀ a b, le a b = true ∨ le b a = true)
    {x : α} {l : List α} (h : l.Pairwise (fun a b => le a b = true)) :
    (insertBy le x l).Pairwise (fun a b => le a b = true) := by
  induction l with
  | nil => simp [insertBy]
  | cons y ys ih =>
    rcases h with _ | ⟨hy, hys⟩
    simp only [insertBy]
    split
    · rename_i hxy
      refine List.Pairwise.cons ?_ (List.Pairwise.cons hy hys)
      intro z hz
      rcases List.mem_cons.mp hz with rfl | hz'
      · exact hxy
      · exact htrans x y z hxy (hy z hz')
    · rename_i hxy
      have hyx : le y x = true := by
        rcases htot x y with h' | h'
        · exact absurd h' hxy
        · exact h'
      refine List.Pairwise.cons ?_ (ih hys)
      intro z hz
      have hz' : z ∈ x :: ys := (insertBy_perm le x ys).mem_iff.mp hz
      rcases List.mem_cons.mp hz' with rfl | hz''
      · exact hyx
      · exact hy z hz''

theorem sortBy_pairwise {α : Type} {le : α → α → Bool}
    (htrans : ∀ a b c, le a b = true → le b c = true → le a c = true)
    (htot : ∀ a b, le a b = true ∨ le b a = true) (l : List α) :
    (sortBy le l).Pairwise (fun a b => le a b = true) := by
  induction l with
  | nil => simp [sortBy]
  | cons x xs ih => exact insertBy_pairwise htrans htot ih

theorem insertBy_congr {α : Type} {le₁ le₂ : α → α → Bool} (x : α)
    {l : List α} (h : ∀ y ∈ l, le₁ x y = le₂ x y) :
    insertBy le₁ x l = insertBy le₂ x l := by
  induction l with
  | nil => rfl
  | cons y ys ih =>
    simp only [insertBy]
    rw [h y (List.mem_cons_self y ys)]
    split
    · rfl
    · rw [ih (fun z hz => h z (List.mem_cons_of_mem y hz))]

theorem sortBy_congr {α : Type} {le₁ le₂ : α → α → Bool} {l : List α}
    (h : ∀ a ∈ l, ∀ b ∈ l, le₁ a b = le₂ a b) :
    sortBy le₁ l = sortBy le₂ l := by
  induction l with
  | nil => rfl
  | cons x xs ih =>
    have hxs : ∀ a ∈ xs, ∀ b ∈ xs, le₁ a b = le₂ a b := fun a ha b hb =>
      h a (List.mem_cons_of_mem x ha) b (List.mem_cons_of_mem x hb)
    simp only [sortBy]
    rw [ih hxs]
    exact insertBy_congr x fun y hy =>
      h x (List.mem_cons_self x xs) y (List.mem_cons_of_mem x (mem_sortBy hy))

theorem insertBy_filter_neg {α : Type} (le : α → α → Bool)
    (p : α → Bool) {x : α} (hx : p x = false) (l : List α) :
    (insertBy le x l).filter p = l.filter p := by
  induction l with
  | nil => simp [insertBy, hx]
  | cons y ys ih =>
    simp only [insertBy]
    split
    · simp [List.filter, hx]
    · simp only [List.filter]
      cases hpy : p y <;> simp [hpy, ih]

theorem insertBy_filter_pos {α : Type} (le : α → α → Bool)
    (p : α → Bool) {x : α} (hx : p x = true) {l : List α}
    (h : ∀ y ∈ l, p y = true → le x y = true) :
    (insertBy le x l).filter p = x :: l.filter p := by
  induction l with
  | nil => simp [insertBy, hx]
  | cons y ys ih =>
    simp only [insertBy]
    split
    · simp [List.filter, hx]
    · rename_i hxy
      have hpy : p y = false := by
        cases hpy : p y
        · rfl
        · exact absurd (h y (List.mem_cons_self y ys) hpy) hxy
      simp only [List.filter, hpy]
      exact ih fun z hz hpz => h z (List.mem_cons_of_mem y hz) hpz

theorem sortBy_filter_tied {α : Type} {le : α → α → Bool}
    (p : α → Bool) (hle : ∀ a b, p a = true → p b = true → le a b = true)
    (l : List α) : (sortBy le l).filter p = l.filter p := by
  induction l with
  | nil => rfl
  | cons x xs ih =>
    simp only [sortBy]
    cases hx : p x
    · rw [insertBy_filter_neg le p hx, ih]
      simp [List.filter, hx]
    · rw [insertBy_filter_pos le p hx (fun y _ hpy => hle x y hx hpy), ih]
      simp [List.filter, hx]

/-! ## Lemmas about aggregation -/

/-- Sum of the rational values stored in a line-item map. -/
def valsSumQ (m : List (String × JNum)) : ℚ :=
  (m.map (fun kv => kv.2.toQ)).sum

/-- Sum of the rational costs of a daily-cost list. -/
def dailySumQ (l : List DailyCost) : ℚ :=
  (l.map (fun d => d.cost.toQ)).sum

/-- The numeric amounts of a bucket's results, summed. -/
def resultsSumQ (rs : List CostResult) : ℚ :=
  (rs.map (fun r => (coerceCost r.amount_value).toQ)).sum

/-- The numeric amounts of all results of all buckets, summed. -/
def bucketsSumQ (bs : List CostBucket) : ℚ :=
  (bs.map (fun b => resultsSumQ b.results)).sum

/-- A line-item map none of whose values is `NaN`. -/
def MapReal (m : List (String × JNum)) : Prop :=
  ∀ kv ∈ m, kv.2 ≠ JNum.nan

theorem jsNumOr_val_zero (q : ℚ) :
    jsNumOr (JNum.val q) (JNum.val 0) = JNum.val q := by
  simp only [jsNumOr, JNum.truthy]
  split
  · rfl
  · rename_i h
    simp only [decide_eq_true_eq, ne_eq, not_not] at h
    rw [h]

/-- The map update step of the aggregation loop adds the (real) cost to
the total of the map's values and keeps every value real. -/
theorem mapSet_step (m : List (String × JNum)) (k : String) (c : ℚ)
    (h : MapReal m) :
    MapReal (mapSet m k ((mapGetOrZero m k).add (JNum.val c))) ∧
    valsSumQ (mapSet m k ((mapGetOrZero m k).add (JNum.val c))) =
      valsSumQ m + c := by
  induction m with
  | nil =>
    refine ⟨?_, ?_⟩
    · intro kv hkv
      simp only [mapGetOrZero, mapGet, mapSet, JNum.add, List.mem_singleton,
        jsNumOr, JNum.truthy] at hkv ⊢
      simp only [hkv]
      simp
    · simp [mapGetOrZero, mapGet, mapSet, JNum.add, valsSumQ, JNum.toQ, jsNumOr,
        JNum.truthy]
  | cons kv rest ih =>
    obtain ⟨k', v⟩ := kv
    have hv : v ≠ JNum.nan := h (k', v) (List.mem_cons_self _ _)
    have hrest : MapReal rest := fun kv hkv => h kv (List.mem_cons_of_mem _ hkv)
    by_cases hk : k' = k
    · subst hk
      obtain ⟨q, rfl⟩ : ∃ q, v = JNum.val q := by
        cases v
        · exact absurd rfl hv
        · exact ⟨_, rfl⟩
      have hgz : mapGetOrZero ((k', JNum.val q) :: rest) k' = JNum.val q := by
        simp [mapGetOrZero, mapGet, jsNumOr_val_zero]
      have hset : mapSet ((k', JNum.val q) :: rest) k'
          ((mapGetOrZero ((k', JNum.val q) :: rest) k').add (JNum.val c)) =
          (k', JNum.val (q + c)) :: rest := by
        rw [hgz]
        simp [mapSet, JNum.add]
      rw [hset]
      refine ⟨?_, ?_⟩
      · intro kv hkv
        rcases List.mem_cons.mp hkv with rfl | hkv'
        · simp
        · exact hrest _ hkv'
      · simp only [valsSumQ, List.map, List.sum_cons, JNum.toQ]
        ring
    · have hget : mapGet ((k', v) :: rest) k = mapGet rest k := by
        simp [mapGet, hk]
      have hgz : mapGetOrZero ((k', v) :: rest) k = mapGetOrZero rest k := by
        simp [mapGetOrZero, hget]
      obtain ⟨ihr, ihs⟩ := ih hrest
      rw [hgz]
      simp only [mapSet, if_neg hk]
      refine ⟨?_, ?_⟩
      · intro kv hkv
        rcases List.mem_cons.mp hkv with rfl | hkv'
        · exact hv
        · exact ihr _ hkv'
      · simp only [valsSumQ, List.map, List.sum_cons] at ihs ⊢
        rw [ihs]
        ring
/-- The invariant carried through the aggregation loop: the running
total is the real number `T`, and both the line-item map values and the
daily records also sum to `T`. -/
def AggInv (st : AggState) (T : ℚ) : Prop :=
  st.totalCost = JNum.val T ∧ MapReal st.costsByLineItem ∧
    valsSumQ st.costsByLineItem = T ∧ dailySumQ st.dailyCosts = T

theorem processResult_inv (date : String) (r : CostResult) (st : AggState)
    (T : ℚ) (hr : coerceCost r.amount_value ≠ JNum.nan) (h : AggInv st T) :
    AggInv (processResult date st r) (T + (coerceCost r.amount_value).toQ) := by
  obtain ⟨c, hc⟩ : ∃ c, coerceCost r.amount_value = JNum.val c := by
    cases hcc : coerceCost r.amount_value
    · exact absurd hcc hr
    · exact ⟨_, rfl⟩
  obtain ⟨ht, hm, hvs, hds⟩ := h
  obtain ⟨hm', hvs'⟩ := mapSet_step st.costsByLineItem (lineItemLabel r) c hm
  refine ⟨?_, ?_, ?_, ?_⟩
  · simp [processResult, hc, ht, JNum.add, JNum.toQ]
  · simpa [processResult, hc] using hm'
  · simp only [processResult, hc]
    rw [hvs', hvs]
    simp [JNum.toQ]
  · simp only [processResult, dailySumQ, List.map_append, List.sum_append, hc]
    simp only [dailySumQ] at hds
    rw [hds]
    simp [JNum.toQ]

theorem foldResults_inv (date : String) (rs : List CostResult) :
    ∀ (st : AggState) (T : ℚ),
    (∀ r ∈ rs, coerceCost r.amount_value ≠ JNum.nan) → AggInv st T →
    AggInv (rs.foldl (processResult date) st) (T + resultsSumQ rs) := by
  induction rs with
  | nil =>
    intro st T _ h
    simpa [resultsSumQ] using h
  | cons r rest ih =>
    intro st T hreal h
    have h1 := processResult_inv date r st T
      (hreal r (List.mem_cons_self _ _)) h
    have h2 := ih (processResult date st r)
      (T + (coerceCost r.amount_value).toQ)
      (fun r' hr' => hreal r' (List.mem_cons_of_mem _ hr')) h1
    simpa [resultsSumQ, List.sum_cons, add_assoc] using h2

theorem foldBuckets_inv (bs : List CostBucket) :
    ∀ (st : AggState) (T : ℚ),
    (∀ b ∈ bs, ∀ r ∈ b.results, coerceCost r.amount_value ≠ JNum.nan) →
    AggInv st T →
    AggInv (bs.foldl processBucket st) (T + bucketsSumQ bs) := by
  induction bs with
  | nil =>
    intro st T _ h
    simpa [bucketsSumQ] using h
  | cons b rest ih =>
    intro st T hreal h
    have h1 : AggInv (processBucket st b) (T + resultsSumQ b.results) :=
      foldResults_inv _ b.results st T
        (fun r hr => hreal b (List.mem_cons_self _ _) r hr) h
    have h2 := ih (processBucket st b) (T + resultsSumQ b.results)
      (fun b' hb' r hr => hreal b' (List.mem_cons_of_mem _ hb') r hr) h1
    simpa [bucketsSumQ, List.sum_cons, add_assoc] using h2

theorem JNum.add_nan_left (x : JNum) : JNum.nan.add x = JNum.nan := by
  cases x <;> rfl

theorem JNum.add_nan_right (x : JNum) : x.add JNum.nan = JNum.nan := by
  cases x <;> rfl

theorem processResult_total_nan (date : String) (r : CostResult)
    (st : AggState) (h : st.totalCost = JNum.nan) :
    (processResult date st r).totalCost = JNum.nan := by
  simp [processResult, h, JNum.add_nan_left]

theorem foldResults_total_nan (date : String) (rs : List CostResult) :
    ∀ st : AggState, st.totalCost = JNum.nan →
    (rs.foldl (processResult date) st).totalCost = JNum.nan := by
  induction rs with
  | nil => intro st h; simpa using h
  | cons r rest ih =>
    intro st h
    exact ih _ (processResult_total_nan date r st h)

theorem processBucket_total_nan (b : CostBucket) (st : AggState)
    (h : st.totalCost = JNum.nan) :
    (processBucket st b).totalCost = JNum.nan :=
  foldResults_total_nan _ b.results st h

theorem foldBuckets_total_nan (bs : List CostBucket) :
    ∀ st : AggState, st.totalCost = JNum.nan →
    (bs.foldl processBucket st).totalCost = JNum.nan := by
  induction bs with
  | nil => intro st h; simpa using h
  | cons b rest ih =>
    intro st h
    exact ih _ (processBucket_total_nan b st h)

theorem foldResults_hits_nan (date : String) (rs : List CostResult)
    (r : CostResult) (hr : r ∈ rs)
    (hnan : coerceCost r.amount_value = JNum.nan) :
    ∀ st : AggState, (rs.foldl (processResult date) st).totalCost = JNum.nan := by
  induction rs with
  | nil => cases hr
  | cons r' rest ih =>
    intro st
    rcases List.mem_cons.mp hr with rfl | hr'
    · refine foldResults_total_nan date rest _ ?_
      simp [processResult, hnan, JNum.add_nan_right]
    · exact ih hr' _

theorem foldBuckets_hits_nan (bs : List CostBucket) (b : CostBucket)
    (hb : b ∈ bs) (r : CostResult) (hr : r ∈ b.results)
    (hnan : coerceCost r.amount_value = JNum.nan) :
    ∀ st : AggState, (bs.foldl processBucket st).totalCost = JNum.nan := by
  induction bs with
  | nil => cases hb
  | cons b' rest ih =>
    intro st
    rcases List.mem_cons.mp hb with rfl | hb'
    · exact foldBuckets_total_nan rest _
        (foldResults_hits_nan (epochSecondsToISODate b.start_time)
          b.results r hr hnan st)
    · exact ih hb' _

theorem lineItemLabel_ne_empty (r : CostResult) : lineItemLabel r ≠ "" := by
  simp only [lineItemLabel]
  cases r.line_item with
  | none => decide
  | some s =>
    by_cases hs : s = ""
    · simp [hs]
    · simp [hs]

theorem mem_mapSet {m : List (String × JNum)} {k : String} {v : JNum}
    {kv : String × JNum} (h : kv ∈ mapSet m k v) : kv.1 = k ∨ kv ∈ m := by
  induction m with
  | nil =>
    simp only [mapSet, List.mem_singleton] at h
    left; rw [h]
  | cons kv' rest ih =>
    obtain ⟨k', v'⟩ := kv'
    simp only [mapSet] at h
    split at h
    · rcases List.mem_cons.mp h with rfl | h'
      · left; rfl
      · right; exact List.mem_cons_of_mem _ h'
    · rcases List.mem_cons.mp h with rfl | h'
      · right; exact List.mem_cons_self _ _
      · rcases ih h' with hk | hm
        · left; exact hk
        · right; exact List.mem_cons_of_mem _ hm

/-- The aggregation-state invariant for claim C10: every daily record's
label and every map key is non-empty. -/
def LabelsOk (st : AggState) : Prop :=
  (∀ d ∈ st.dailyCosts, d.lineItem ≠ "") ∧
    (∀ kv ∈ st.costsByLineItem, kv.1 ≠ "")

theorem processResult_labels (date : String) (r : CostResult)
    (st : AggState) (h : LabelsOk st) : LabelsOk (processResult date st r) := by
  obtain ⟨hd, hm⟩ := h
  constructor
  · intro d hdmem
    simp only [processResult, List.mem_append, List.mem_singleton] at hdmem
    rcases hdmem with hdm | rfl
    · exact hd d hdm
    · exact lineItemLabel_ne_empty r
  · intro kv hkv
    simp only [processResult] at hkv
    rcases mem_mapSet hkv with hk | hm'
    · rw [hk]; exact lineItemLabel_ne_empty r
    · exact hm kv hm'

theorem foldResults_labels (date : String) (rs : List CostResult) :
    ∀ st : AggState, LabelsOk st →
    LabelsOk (rs.foldl (processResult date) st) := by
  induction rs with
  | nil => intro st h; simpa using h
  | cons r rest ih =>
    intro st h
    exact ih _ (processResult_labels date r st h)

theorem foldBuckets_labels (bs : List CostBucket) :
    ∀ st : AggState, LabelsOk st →
    LabelsOk (bs.foldl processBucket st) := by
  induction bs with
  | nil => intro st h; simpa using h
  | cons b rest ih =>
    intro st h
    exact ih _ (foldResults_labels _ b.results st h)

/-! ## Claim theorems -/

/-- C1: for every list of cost buckets whose amounts are numbers or
numeric strings (i.e. every amount coerces to a real number, not `NaN`),
`aggregateCosts` returns a value whose `totalCost` equals the sum of the
numeric amounts of all results, equals the sum of the `costsByLineItem`
values, and equals the sum of the `dailyCosts` costs (exactly, in the
rational model that abstracts floating-point rounding). -/
theorem aggregateCosts_totals_invariant (buckets : List CostBucket)
    (startDate endDate projectId : String)
    (h : ∀ b ∈ buckets, ∀ r ∈ b.results,
      coerceCost r.amount_value ≠ JNum.nan) :
    (aggregateCosts buckets startDate endDate projectId).totalCost =
      JNum.val (bucketsSumQ buckets) ∧
    (aggregateCosts buckets startDate endDate projectId).totalCost =
      JNum.val (valsSumQ
        (aggregateCosts buckets startDate endDate projectId).costsByLineItem) ∧
    (aggregateCosts buckets startDate endDate projectId).totalCost =
      JNum.val (dailySumQ
        (aggregateCosts buckets startDate endDate projectId).dailyCosts) := by
  have hinit : AggInv ⟨[], [], JNum.val 0⟩ 0 := by
    refine ⟨rfl, ?_, ?_, ?_⟩
    · intro kv hkv; cases hkv
    · simp [valsSumQ]
    · simp [dailySumQ]
  have hinv := foldBuckets_inv buckets ⟨[], [], JNum.val 0⟩ 0 h hinit
  obtain ⟨ht, _, hvs, hds⟩ := hinv
  have htc : (aggregateCosts buckets startDate endDate projectId).totalCost =
      (buckets.foldl processBucket ⟨[], [], JNum.val 0⟩).totalCost := rfl
  have hmc : (aggregateCosts buckets startDate endDate projectId).costsByLineItem =
      (buckets.foldl processBucket ⟨[], [], JNum.val 0⟩).costsByLineItem := rfl
  have hdc : (aggregateCosts buckets startDate endDate projectId).dailyCosts =
      (buckets.foldl processBucket ⟨[], [], JNum.val 0⟩).dailyCosts := rfl
  refine ⟨?_, ?_, ?_⟩
  · rw [htc, ht]; norm_num
  · rw [htc, hmc, hvs, ht]
  · rw [htc, hdc, hds, ht]

/-- A two-bucket input (one amount a number, one a numeric string, one
empty bucket) witnessing C1 at a concrete input. -/
def bucketsC1 : List CostBucket :=
  [⟨86400, 172800,
    [⟨.num (JNum.val (5 / 2)), "usd", some "gpt-4", some "proj-1"⟩,
     ⟨.str "3.5", "usd", none, none⟩]⟩,
   ⟨172800, 259200, []⟩]

/-- Witness for C1: the invariant evaluated at `bucketsC1`. -/
theorem aggregateCosts_totals_invariant_witness :
    (aggregateCosts bucketsC1 "2024-01-01" "2024-01-31" "proj-1").totalCost =
      JNum.val (bucketsSumQ bucketsC1) :=
  (aggregateCosts_totals_invariant bucketsC1 "2024-01-01" "2024-01-31"
    "proj-1" (by decide)).1

/-- C5: `billingDays` is the count of buckets supplied (a bucket with no
results still counts; buckets are not deduplicated by date), and
`averageDailyCost` is `totalCost / billingDays`, with `0` for an empty
bucket list (so multiplying it back by `billingDays` recovers
`totalCost`). -/
theorem aggregateCosts_billingDays_average (buckets : List CostBucket)
    (startDate endDate projectId : String) :
    (aggregateCosts buckets startDate endDate projectId).billingDays =
      buckets.length ∧
    (buckets = [] →
      (aggregateCosts buckets startDate endDate projectId).averageDailyCost =
        JNum.val 0) ∧
    (buckets ≠ [] →
      (aggregateCosts buckets startDate endDate projectId).averageDailyCost =
        (aggregateCosts buckets startDate endDate projectId).totalCost.div
          (JNum.val buckets.length) ∧
      (aggregateCosts buckets startDate endDate projectId).averageDailyCost.mul
          (JNum.val buckets.length) =
        (aggregateCosts buckets startDate endDate projectId).totalCost) := by
  refine ⟨rfl, ?_, ?_⟩
  · intro h
    subst h
    rfl
  · intro h
    have hlen : 0 < buckets.length := List.length_pos.mpr h
    have havg : (aggregateCosts buckets startDate endDate projectId).averageDailyCost =
        (buckets.foldl processBucket ⟨[], [], JNum.val 0⟩).totalCost.div
          (JNum.val buckets.length) := by
      simp only [aggregateCosts, if_pos hlen]
    have htot : (aggregateCosts buckets startDate endDate projectId).totalCost =
        (buckets.foldl processBucket ⟨[], [], JNum.val 0⟩).totalCost := rfl
    refine ⟨havg, ?_⟩
    rw [havg, htot]
    have hq : ((buckets.length : ℚ)) ≠ 0 := by
      exact_mod_cast Nat.pos_iff_ne_zero.mp hlen
    cases htc : (buckets.foldl processBucket ⟨[], [], JNum.val 0⟩).totalCost with
    | nan => simp [JNum.div, JNum.mul]
    | val t =>
      simp only [JNum.div, if_neg hq, JNum.mul]
      rw [div_mul_cancel₀ t hq]

/-- Witness for C5 at a concrete input: one empty bucket. -/
theorem aggregateCosts_billingDays_average_witness :
    (aggregateCosts [⟨0, 86400, []⟩] "a" "b" "p").averageDailyCost.mul
      (JNum.val 1) =
    (aggregateCosts [⟨0, 86400, []⟩] "a" "b" "p").totalCost := by
  have h := (aggregateCosts_billingDays_average [⟨0, 86400, []⟩] "a" "b"
    "p").2.2 (by decide)
  simpa using h.2

/-- C6: `aggregateCosts` is a pure total function — for well-formed input
(every amount coercible to a number) it returns a real total, never an
error value — and when some `amount.value` is a string that cannot be
coerced to a number, the runtime's numeric-parse failure value (`NaN`,
which is what `parseFloat` signals failure with) propagates into the
returned `totalCost` rather than being handled locally or classified as a
dedicated error kind. -/
theorem aggregateCosts_total_and_nan_propagation (buckets : List CostBucket)
    (startDate endDate projectId : String) :
    ((∀ b ∈ buckets, ∀ r ∈ b.results,
        coerceCost r.amount_value ≠ JNum.nan) →
      ∃ q, (aggregateCosts buckets startDate endDate projectId).totalCost =
        JNum.val q) ∧
    (∀ b ∈ buckets, ∀ r ∈ b.results, coerceCost r.amount_value = JNum.nan →
      (aggregateCosts buckets startDate endDate projectId).totalCost =
        JNum.nan) := by
  constructor
  · intro h
    have hinit : AggInv ⟨[], [], JNum.val 0⟩ 0 := by
      refine ⟨rfl, ?_, ?_, ?_⟩
      · intro kv hkv; cases hkv
      · simp [valsSumQ]
      · simp [dailySumQ]
    obtain ⟨ht, _, _, _⟩ := foldBuckets_inv buckets ⟨[], [], JNum.val 0⟩ 0 h hinit
    exact ⟨0 + bucketsSumQ buckets, ht⟩
  · intro b hb r hr hnan
    exact foldBuckets_hits_nan buckets b hb r hr hnan ⟨[], [], JNum.val 0⟩

/-- A bucket whose amount is an unparseable string, witnessing C6. -/
def bucketsC6 : List CostBucket :=
  [⟨0, 86400, [⟨.str "not-a-number", "usd", some "gpt-4", none⟩]⟩]

/-- Witness for C6: the unparseable amount contaminates `totalCost` with
`NaN`. -/
theorem aggregateCosts_total_and_nan_propagation_witness :
    (aggregateCosts bucketsC6 "2024-01-01" "2024-01-31" "p").totalCost =
      JNum.nan :=
  (aggregateCosts_total_and_nan_propagation bucketsC6 "2024-01-01"
    "2024-01-31" "p").2
    ⟨0, 86400, [⟨.str "not-a-number", "usd", some "gpt-4", none⟩]⟩
    (by decide)
    ⟨.str "not-a-number", "usd", some "gpt-4", none⟩
    (by decide) (by decide)

/-- C9: `validateDateRange(start, end)` fails exactly when `end <= start`
(equal endpoints rejected) and succeeds exactly when `end > start`. -/
theorem validateDateRange_ok_iff (startMs endMs : ℤ) :
    (validateDateRange startMs endMs = .ok () ↔ startMs < endMs) ∧
    (validateDateRange startMs endMs =
        .error "End date must be after start date" ↔ endMs ≤ startMs) := by
  unfold validateDateRange
  by_cases h : endMs ≤ startMs
  · rw [if_pos h]
    exact ⟨iff_of_false (by simp) (by omega), iff_of_true rfl h⟩
  · rw [if_neg h]
    exact ⟨iff_of_true rfl (by omega), iff_of_false (by simp) h⟩

/-- Witness for C9: equal endpoints are rejected, a forward range is
accepted. -/
theorem validateDateRange_ok_iff_witness :
    validateDateRange 0 0 = .error "End date must be after start date" ∧
    validateDateRange 0 86400000 = .ok () :=
  ⟨(validateDateRange_ok_iff 0 0).2.mpr (by decide),
   (validateDateRange_ok_iff 0 86400000).1.mpr (by decide)⟩

/-- C10: the aggregator enforces the non-empty-label invariant at its own
interface: a result whose `line_item` is `null` or the empty string is
recorded under `"unknown"`, and every `dailyCosts` entry's `lineItem` and
every `costsByLineItem` key in the output is a non-empty string. -/
theorem aggregateCosts_nonempty_labels (buckets : List CostBucket)
    (startDate endDate projectId : String) :
    (∀ r : CostResult, r.line_item = none ∨ r.line_item = some "" →
      lineItemLabel r = "unknown") ∧
    (∀ d ∈ (aggregateCosts buckets startDate endDate projectId).dailyCosts,
      d.lineItem ≠ "") ∧
    (∀ kv ∈ (aggregateCosts buckets startDate endDate
        projectId).costsByLineItem, kv.1 ≠ "") := by
  have hlabels := foldBuckets_labels buckets ⟨[], [], JNum.val 0⟩
    ⟨fun d hd => absurd hd (List.not_mem_nil d),
     fun kv hkv => absurd hkv (List.not_mem_nil kv)⟩
  refine ⟨?_, hlabels.1, hlabels.2⟩
  intro r hr
  rcases hr with hn | he
  · simp [lineItemLabel, hn]
  · simp [lineItemLabel, he]

/-- Witness for C10: an empty-string `line_item` lands under `"unknown"`,
and a concrete daily record produced by the aggregator has a non-empty
label. -/
theorem aggregateCosts_nonempty_labels_witness :
    lineItemLabel ⟨.num (JNum.val 1), "usd", some "", none⟩ = "unknown" ∧
    ("unknown" : String) ≠ "" := by
  have h := aggregateCosts_nonempty_labels
    [⟨0, 86400, [⟨.num (JNum.val 1), "usd", some "", none⟩]⟩] "a" "b" "p"
  refine ⟨h.1 ⟨.num (JNum.val 1), "usd", some "", none⟩ (Or.inr rfl), ?_⟩
  exact h.2.1 ⟨"1970-01-01", "unknown", JNum.val 1⟩ (by decide)

/-- C4: `parseDate` accepts exactly the strict `YYYY-MM-DD` strings: a
string not matching the pattern fails with the invalid-format error; a
matching string is turned into a UTC-midnight instant and fails with the
invalid-date error when the construction yields an invalid date or when
re-serializing the instant to `YYYY-MM-DD` differs from the input (so
`"2024-02-30"` is rejected rather than rolled over); and every accepted
string round-trips: reformatting the parsed instant reproduces it. -/
theorem parseDate_strict_roundtrip (s : String) :
    ((extractYMD s).isSome = false →
      parseDate s = .error (.invalidFormat s)) ∧
    (∀ ms : ℤ, parseDate s = .ok ms → toISODateString ms = s) ∧
    ((extractYMD s).isSome = true → ∀ ms : ℤ,
      jsDateMs (s ++ "T00:00:00Z") = some ms → toISODateString ms ≠ s →
      parseDate s = .error (.invalidDate s)) ∧
    ((extractYMD s).isSome = true → jsDateMs (s ++ "T00:00:00Z") = none →
      parseDate s = .error (.invalidDate s)) ∧
    parseDate "2024-02-30" = .error (.invalidDate "2024-02-30") := by
  refine ⟨?_, ?_, ?_, ?_, by rfl⟩
  · intro h
    simp only [parseDate, if_pos h]
  · intro ms h
    by_cases hf : (extractYMD s).isSome = false
    · simp only [parseDate, if_pos hf] at h
      exact Except.noConfusion h
    · simp only [parseDate, if_neg hf] at h
      cases hj : jsDateMs (s ++ "T00:00:00Z") with
      | none =>
        rw [hj] at h
        exact Except.noConfusion h
      | some ms2 =>
        rw [hj] at h
        dsimp only at h
        by_cases hiso : toISODateString ms2 = s
        · rw [if_pos hiso] at h
          obtain rfl : ms2 = ms := by injection h
          exact hiso
        · rw [if_neg hiso] at h
          exact Except.noConfusion h
  · intro hfmt ms hj hiso
    have hf : ¬((extractYMD s).isSome = false) := by simp [hfmt]
    simp only [parseDate, if_neg hf, hj]
    rw [if_neg hiso]
  · intro hfmt hj
    have hf : ¬((extractYMD s).isSome = false) := by simp [hfmt]
    simp only [parseDate, if_neg hf, hj]

/-- Witness for C4: a valid date round-trips, and the day-overflow date
`2024-02-30` is rejected. -/
theorem parseDate_strict_roundtrip_witness :
    toISODateString 1705276800000 = "2024-01-15" ∧
    parseDate "2024-02-30" = .error (.invalidDate "2024-02-30") :=
  ⟨(parseDate_strict_roundtrip "2024-01-15").2.1 1705276800000 (by rfl),
   (parseDate_strict_roundtrip "2024-01-15").2.2.2.2⟩

/-- The amended spec-side description of the Claude `lineItem` choice:
a non-null *non-empty* description wins; with a null description, the
space-joined concatenation of the truthy ones among `model` and
`cost_type` wins if non-empty; everything else — including a non-null
empty description — yields `"unknown"`. -/
def specLineItemAmended (r : ClaudeCostResult) : String :=
  match r.description with
  | some d => if d = "" then "unknown" else d
  | none =>
    let joined :=
      String.intercalate " " (filterTruthyStrings [r.model, r.cost_type])
    if joined = "" then "unknown" else joined

/-- A Claude result with a non-null empty `description` (and non-null
`model`/`cost_type`), on which the claim's label rule and the code
disagree. -/
def claudeResultEmptyDesc : ClaudeCostResult :=
  ⟨"0", "USD", some "", some "claude-3-opus", some "tokens"⟩

/-- Counterexample for C2 as stated: this result's `description` is
non-null (it is the empty string), so the claimed priority rule
"description if non-null" would label it with the empty description; the
code instead labels it `"unknown"`, because the `|| 'unknown'` fallback
fires on any falsy label, not only when `model` and `cost_type` are both
null. -/
theorem claude_normalization_counterexample :
    claudeResultEmptyDesc.description = some "" ∧
    (claudeBucketToCostBucket
      ⟨"2024-01-01T00:00:00Z", "2024-01-02T00:00:00Z",
        [claudeResultEmptyDesc]⟩).results.map (fun r => r.line_item) =
      [some "unknown"] ∧
    some ("unknown" : String) ≠ some ("" : String) := by
  refine ⟨rfl, ?_, by decide⟩
  decide

/-- C2 (amended): Claude normalization converts each result's amount (a
decimal string in cents) to dollars by parsing it as a float and dividing
by 100, sets `projectId` to null, and chooses `lineItem` by the amended
rule of `specLineItemAmended` (the claim's rule, except that a non-null
*empty* description also falls through to `"unknown"`).  In particular
amount `"123.45"` maps to `1.2345`, a null description with
`model="claude-3-opus"` and `cost_type="tokens"` maps to
`"claude-3-opus tokens"`, and all three fields null map to
`"unknown"`. -/
theorem claude_normalization_amended (b : ClaudeCostBucket) :
    (claudeBucketToCostBucket b).results =
      b.results.map claudeResultToCostResult ∧
    (∀ r : ClaudeCostResult, claudeResultToCostResult r =
      { amount_value := .num ((jsParseFloat r.amount).div (JNum.val 100)),
        amount_currency := r.currency,
        line_item := some (specLineItemAmended r),
        project_id := none }) ∧
    (jsParseFloat "123.45").div (JNum.val 100) =
      JNum.val (12345 / 10000) ∧
    claudeLineItem ⟨"0", "USD", none, some "claude-3-opus", some "tokens"⟩ =
      "claude-3-opus tokens" ∧
    claudeLineItem ⟨"0", "USD", none, none, none⟩ = "unknown" := by
  refine ⟨rfl, ?_, ?_, by decide, by decide⟩
  case refine_2 =>
    have h1 : jsParseFloat "123.45" = JNum.val (2469 / 20) := by
      simp [jsParseFloat, digitsVal, parseExponent, List.takeWhile,
        List.dropWhile]
      norm_num
    rw [h1]
    simp only [JNum.div]
    norm_num
  case refine_1 =>
  intro r
  have hli : claudeLineItem r = specLineItemAmended r := by
    cases hd : r.description with
    | some d => simp [claudeLineItem, specLineItemAmended, hd]
    | none => simp [claudeLineItem, specLineItemAmended, hd]
  simp [claudeResultToCostResult, hli]

/-- The generic pagination run: consuming a well-formed prefix of
responses that all continue (`has_more` true with a truthy `next_page`)
followed by one that stops, the loop calls once per consumed response —
the first call with no `page` parameter and each later call with `page`
equal to the previous response's `next_page` — and returns the in-order
concatenation of the consumed pages' (converted) buckets; responses after
the stopping one are never requested. -/
theorem fetchLoop_run {β : Type} (conv : List β → List CostBucket)
    (pre : List (PageResponse β)) (r : PageResponse β)
    (post : List (PageResponse β))
    (hpre : ∀ p ∈ pre, p.has_more = true ∧ truthyStr p.next_page = true)
    (hr : r.has_more = false ∨ truthyStr r.next_page = false) :
    ∀ page : Option String,
    fetchLoop conv page (pre ++ r :: post) =
      some ⟨page :: pre.map (fun p => p.next_page),
            ((pre ++ [r]).map (fun p => conv p.data)).flatten⟩ := by
  induction pre with
  | nil =>
    intro page
    have hnp : truthyStr (if r.has_more then r.next_page else none) = false := by
      rcases hr with h | h
      · simp [h, truthyStr]
      · cases hhm : r.has_more
        · simp [truthyStr]
        · simpa [hhm] using h
    simp [fetchLoop, hnp]
  | cons p ps ih =>
    intro page
    obtain ⟨hm, ht⟩ := hpre p (List.mem_cons_self _ _)
    have hih := ih (fun q hq => hpre q (List.mem_cons_of_mem _ hq)) p.next_page
    simp [fetchLoop, hm, ht, hih]

/-- Counterexample for C3 as stated: a first response with
`has_more = true` but a null `next_page`.  The claim says the fetcher
issues the next call while `has_more` is true and terminates exactly when
`has_more` is false; the code instead stops after this single call (the
trace records exactly one call) because the loop guard tests the
truthiness of `next_page`, not `has_more`. -/
theorem fetch_pagination_counterexample :
    fetchOpenAICosts [⟨[], true, none⟩, ⟨[], false, none⟩] =
      some ⟨[none], []⟩ ∧
    (⟨[], true, none⟩ : PageResponse CostBucket).has_more = true :=
  ⟨rfl, rfl⟩

/-- C3 (amended): for every response sequence in which each continuing
response (`has_more = true`) carries a truthy (non-null, non-empty)
`next_page`, both fetchers call once per page up to and including the
first stopping response, pass each call a `page` parameter equal to the
previous response's `next_page` (no `page` on the first call), and return
the in-order concatenation of all consumed pages' buckets — normalized
per bucket in the Claude case.  Termination happens exactly at the first
response whose `has_more` is false or whose `next_page` is falsy. -/
theorem fetch_pagination_amended :
    (∀ (pre : List (PageResponse CostBucket)) (r : PageResponse CostBucket)
        (post : List (PageResponse CostBucket)),
      (∀ p ∈ pre, p.has_more = true ∧ truthyStr p.next_page = true) →
      r.has_more = false ∨ truthyStr r.next_page = false →
      fetchOpenAICosts (pre ++ r :: post) =
        some ⟨none :: pre.map (fun p => p.next_page),
              ((pre ++ [r]).map (fun p => p.data)).flatten⟩) ∧
    (∀ (pre : List (PageResponse ClaudeCostBucket))
        (r : PageResponse ClaudeCostBucket)
        (post : List (PageResponse ClaudeCostBucket)),
      (∀ p ∈ pre, p.has_more = true ∧ truthyStr p.next_page = true) →
      r.has_more = false ∨ truthyStr r.next_page = false →
      fetchClaudeCosts (pre ++ r :: post) =
        some ⟨none :: pre.map (fun p => p.next_page),
              ((pre ++ [r]).map
                (fun p => p.data.map claudeBucketToCostBucket)).flatten⟩) := by
  constructor
  · intro pre r post hpre hr
    simpa [fetchOpenAICosts] using fetchLoop_run id pre r post hpre hr none
  · intro pre r post hpre hr
    simpa [fetchClaudeCosts] using
      fetchLoop_run (List.map claudeBucketToCostBucket) pre r post hpre hr none

/-- Witness for C3 (amended) at the two-page scenario: exactly two calls,
the second carrying the first response's `next_page`, and the buckets of
both pages concatenated in order. -/
theorem fetch_pagination_amended_witness :
    fetchOpenAICosts
      [⟨[⟨0, 86400, []⟩], true, some "page-2"⟩,
       ⟨[⟨86400, 172800, []⟩], false, none⟩] =
      some ⟨[none, some "page-2"],
            [⟨0, 86400, []⟩, ⟨86400, 172800, []⟩]⟩ := by
  have h := fetch_pagination_amended.1
    [⟨[⟨0, 86400, []⟩], true, some "page-2"⟩]
    ⟨[⟨86400, 172800, []⟩], false, none⟩ [] (by decide) (Or.inl rfl)
  simpa using h

/-- The CSV row order: date strictly first, line item second (both
code-point lexicographic). -/
def CsvOrd (a b : DailyCost) : Prop :=
  a.date < b.date ∨ (a.date = b.date ∧ a.lineItem ≤ b.lineItem)

theorem csvLe_iff (a b : DailyCost) : csvLe a b = true ↔ CsvOrd a b := by
  simp [csvLe, CsvOrd]

theorem CsvOrd_trans {a b c : DailyCost} (h1 : CsvOrd a b)
    (h2 : CsvOrd b c) : CsvOrd a c := by
  rcases h1 with h1 | ⟨e1, l1⟩ <;> rcases h2 with h2 | ⟨e2, l2⟩
  · exact Or.inl (lt_trans h1 h2)
  · exact Or.inl (e2 ▸ h1)
  · exact Or.inl (e1 ▸ h2)
  · exact Or.inr ⟨e1.trans e2, le_trans l1 l2⟩

theorem CsvOrd_total (a b : DailyCost) : CsvOrd a b ∨ CsvOrd b a := by
  rcases lt_trichotomy a.date b.date with h | h | h
  · exact Or.inl (Or.inl h)
  · rcases le_total a.lineItem b.lineItem with hl | hl
    · exact Or.inl (Or.inr ⟨h, hl⟩)
    · exact Or.inr (Or.inr ⟨h.symm, hl⟩)
  · exact Or.inr (Or.inl h)

/-- C7: the CSV renderer emits the header row
`date,line_item,cost_usd,project_id` followed by one row per `dailyCosts`
record, the rows being a permutation of the daily records sorted by date
string ascending then line-item string ascending, each cost formatted to
two decimal places by `csvRow`, with the line item escaped exactly when it
contains a comma, double quote or newline, and the whole output carrying a
trailing newline. -/
theorem generateCSVReport_spec (agg : AggregatedCosts) :
    ∃ rows : List DailyCost,
      rows.Perm agg.dailyCosts ∧
      rows.Pairwise CsvOrd ∧
      generateCSVReport agg =
        String.intercalate "\n"
          ("date,line_item,cost_usd,project_id" ::
            rows.map (csvRow agg.projectId)) ++ "\n" ∧
      (∀ v : String,
        (csvNeedsEscape v = true →
          escapeCSV v = "\"" ++ doubleQuotes v ++ "\"") ∧
        (csvNeedsEscape v = false → escapeCSV v = v)) := by
  refine ⟨sortBy csvLe agg.dailyCosts, sortBy_perm _ _, ?_, rfl, ?_⟩
  · have htrans : ∀ a b c : DailyCost, csvLe a b = true → csvLe b c = true →
        csvLe a c = true := fun a b c hab hbc =>
      (csvLe_iff a c).mpr
        (CsvOrd_trans ((csvLe_iff a b).mp hab) ((csvLe_iff b c).mp hbc))
    have htot : ∀ a b : DailyCost, csvLe a b = true ∨ csvLe b a = true :=
      fun a b => by
        rcases CsvOrd_total a b with h | h
        · exact Or.inl ((csvLe_iff a b).mpr h)
        · exact Or.inr ((csvLe_iff b a).mpr h)
    exact (sortBy_pairwise htrans htot agg.dailyCosts).imp
      fun h => (csvLe_iff _ _).mp h
  · intro v
    constructor
    · intro h
      simp [escapeCSV, h]
    · intro h
      simp [escapeCSV, h]

/-- Witness for C7: the escaping rule evaluated on a line item that needs
escaping and one that does not, via the theorem at a concrete aggregate. -/
theorem generateCSVReport_spec_witness :
    escapeCSV "a,b" = "\"a,b\"" ∧ escapeCSV "plain" = "plain" := by
  obtain ⟨rows, hperm, hsorted, heq, hesc⟩ := generateCSVReport_spec
    ⟨JNum.val 0, "2024-01-01", "2024-01-02", "proj", [], [], 0, JNum.val 0⟩
  exact ⟨(hesc "a,b").1 (by decide), (hesc "plain").2 (by decide)⟩

/-- The non-`NaN` comparison underlying the line-item sort: descending by
stored rational value. -/
def descValLe (a b : String × JNum) : Bool :=
  decide (b.2.toQ ≤ a.2.toQ)

theorem costDescLe_eq_descValLe {a b : String × JNum}
    (ha : a.2 ≠ JNum.nan) (hb : b.2 ≠ JNum.nan) :
    costDescLe a b = descValLe a b := by
  obtain ⟨qa, hqa⟩ : ∃ q, a.2 = JNum.val q := by
    cases h : a.2
    · exact absurd h ha
    · exact ⟨_, rfl⟩
  obtain ⟨qb, hqb⟩ : ∃ q, b.2 = JNum.val q := by
    cases h : b.2
    · exact absurd h hb
    · exact ⟨_, rfl⟩
  simp only [costDescLe, descValLe, hqa, hqb, JNum.sub, JNum.toQ]
  exact decide_eq_decide.mpr sub_nonpos

theorem descValLe_trans (a b c : String × JNum)
    (h1 : descValLe a b = true) (h2 : descValLe b c = true) :
    descValLe a c = true := by
  simp only [descValLe, decide_eq_true_eq] at h1 h2 ⊢
  exact le_trans h2 h1

theorem descValLe_total (a b : String × JNum) :
    descValLe a b = true ∨ descValLe b a = true := by
  simp only [descValLe, decide_eq_true_eq]
  exact le_total b.2.toQ a.2.toQ

theorem costDescLe_tied {c : JNum} {a b : String × JNum}
    (ha : a.2 == c) (hb : b.2 == c) : costDescLe a b = true := by
  have ha' : a.2 = c := eq_of_beq ha
  have hb' : b.2 = c := eq_of_beq hb
  rw [costDescLe, hb', ha']
  cases c with
  | nan => rfl
  | val q => simp [JNum.sub]

/-- C8: when the line-item map is non-empty, the Markdown report consists
of the header block followed by the "Cost by Model/Service" table whose
data rows come from a permutation of the line-item entries that is sorted
by descending cost (when the costs are real numbers) with a stable
tie-break (entries of any given cost keep their original map order), each
row carrying the percentage-of-total to one decimal place and `0.0` when
the total is zero, and then the two daily tables; when the map is empty,
the report is the header block followed by the single line
`No usage data for this period.` in place of the three tables. -/
theorem generateMarkdownReport_spec (agg : AggregatedCosts)
    (orgId : String) (provider : Provider) (now : String) :
    (agg.costsByLineItem = [] →
      generateMarkdownReport agg orgId provider now =
        String.intercalate "\n" (mdHeaderLines agg orgId provider now ++
          ["No usage data for this period.", ""])) ∧
    (agg.costsByLineItem ≠ [] →
      ∃ es : List (String × JNum),
        es.Perm agg.costsByLineItem ∧
        ((∀ kv ∈ agg.costsByLineItem, kv.2 ≠ JNum.nan) →
          es.Pairwise (fun a b => b.2.toQ ≤ a.2.toQ)) ∧
        (∀ c : JNum, es.filter (fun kv => kv.2 == c) =
          agg.costsByLineItem.filter (fun kv => kv.2 == c)) ∧
        generateMarkdownReport agg orgId provider now =
          String.intercalate "\n" (mdHeaderLines agg orgId provider now ++
            (["## Cost by Model/Service", "",
              "| Model/Service | Total Cost | % of Total |",
              "|---------------|-----------|------------|"] ++
              es.map (lineItemRow agg.totalCost) ++ [""]) ++
            dailyBreakdownLines agg ++ totalByDayLines agg) ∧
        (agg.totalCost = JNum.val 0 →
          ∀ kv ∈ es, lineItemRow agg.totalCost kv =
            "| " ++ kv.1 ++ " | $" ++ jsToFixed 2 kv.2 ++ " | " ++ "0.0" ++
              "% |")) := by
  constructor
  · intro h
    simp [generateMarkdownReport, h]
  · intro h
    have hlen : 0 < agg.costsByLineItem.length := List.length_pos.mpr h
    refine ⟨sortBy costDescLe agg.costsByLineItem, sortBy_perm _ _, ?_, ?_,
      ?_, ?_⟩
    · intro hreal
      have hcongr : sortBy costDescLe agg.costsByLineItem =
          sortBy descValLe agg.costsByLineItem :=
        sortBy_congr fun a ha b hb =>
          costDescLe_eq_descValLe (hreal a ha) (hreal b hb)
      rw [hcongr]
      exact (sortBy_pairwise descValLe_trans descValLe_total
        agg.costsByLineItem).imp fun hab => by
          simpa [descValLe] using hab
    · intro c
      exact @sortBy_filter_tied (String × JNum) costDescLe
        (fun kv => kv.2 == c) (fun a b ha hb => costDescLe_tied ha hb)
        agg.costsByLineItem
    · simp only [generateMarkdownReport, costByLineItemLines, if_pos hlen]
      simp
    · intro hz kv _
      simp [lineItemRow, hz, JNum.gtZero]

/-- Witness for C8: the empty-map case at a concrete aggregate. -/
theorem generateMarkdownReport_spec_witness :
    generateMarkdownReport
      ⟨JNum.val 0, "2024-01-01", "2024-01-02", "proj", [], [], 0, JNum.val 0⟩
      "org-1" .openai "2024-02-01T00:00:00.000Z" =
    String.intercalate "\n"
      (mdHeaderLines
        ⟨JNum.val 0, "2024-01-01", "2024-01-02", "proj", [], [], 0,
          JNum.val 0⟩ "org-1" .openai "2024-02-01T00:00:00.000Z" ++
        ["No usage data for this period.", ""]) :=
  (generateMarkdownReport_spec
    ⟨JNum.val 0, "2024-01-01", "2024-01-02", "proj", [], [], 0, JNum.val 0⟩
    "org-1" .openai "2024-02-01T00:00:00.000Z").1 rfl
